import Mathlib

/-!
Verification of the document registry and sitemap generator of the
frostzt/portfolio repository.

The sitemap generator is translated from `src/app/sitemap.ts`.  The document
registry (`getBlogPosts` / `listPosts` and its front-matter extraction logic
in `app/blog/utils.ts`) is not part of the available sources, so it is
modelled from the specification's description of its behaviour; each such
definition carries a doc comment starting with `Modelled from the spec:`.

Strings are handled through their underlying character lists (`String.data`)
so that every operation is executable and kernel-reducible.
-/

namespace Portfolio

/-- A parsed post: the front-matter metadata (key/value pairs in file order),
the URL slug derived from the file name, and the body text. -/
structure Post where
  metadata : List (String × String)
  slug : String
  body : String
deriving DecidableEq

/-- Error taxonomy of the registry: the configured document directory is
missing.  Fatal to the listing operation, surfaced to the caller. -/
inductive RegistryError where
  | DirectoryNotFound
deriving DecidableEq

/-- Modelled from the spec: a front-matter delimiter is a line consisting
solely of three hyphens. -/
def isDelimLine (l : List Char) : Bool :=
  l == ['-', '-', '-']

/-- Split a list of lines at the first delimiter line, returning the lines
before it and the lines after it; `none` when no delimiter line exists. -/
def splitAtDelim : List (List Char) → Option (List (List Char) × List (List Char))
  | [] => none
  | l :: rest =>
    if isDelimLine l then some ([], rest)
    else (splitAtDelim rest).map (fun p => (l :: p.1, p.2))

/-- Split text into lines at newline characters. -/
def splitLines : List Char → List (List Char)
  | [] => [[]]
  | c :: rest =>
    if c = '\n' then [] :: splitLines rest
    else
      match splitLines rest with
      | [] => [[c]]
      | line :: ls => (c :: line) :: ls

/-- Rejoin lines with newline characters. -/
def joinLines : List (List Char) → List Char
  | [] => []
  | [l] => l
  | l :: l2 :: ls => l ++ '\n' :: joinLines (l2 :: ls)

/-- Whitespace characters removed by trimming. -/
def isWS (c : Char) : Bool :=
  c = ' ' || c = '\t' || c = '\r' || c = '\n'

/-- Trim surrounding whitespace from a character list. -/
def trim (l : List Char) : List Char :=
  ((l.dropWhile isWS).reverse.dropWhile isWS).reverse

/-- The single-quote character. -/
def squote : Char := Char.ofNat 39

/-- The double-quote character. -/
def dquote : Char := Char.ofNat 34

/-- Modelled from the spec: strip one layer of matching leading/trailing
quote characters from a value, if present. -/
def stripQuotes (v : List Char) : List Char :=
  match v with
  | [] => []
  | c :: rest =>
    if rest ≠ [] ∧ (c :: rest).getLast? = some c ∧ (c = squote ∨ c = dquote)
    then rest.dropLast
    else c :: rest

/-- Modelled from the spec: split a header line on the FIRST colon only,
returning the text before it and the full remainder after it; `none` when the
line contains no colon. -/
def breakOnColon : List Char → Option (List Char × List Char)
  | [] => none
  | c :: rest =>
    if c = ':' then some ([], rest)
    else (breakOnColon rest).map (fun p => (c :: p.1, p.2))

/-- Modelled from the spec: parse one header line: split on the first colon,
trim surrounding whitespace from key and value, strip one layer of matching
quotes from the value.  Lines without a colon yield `none` and are skipped
silently by the caller. -/
def parseHeaderLine (l : List Char) : Option (List Char × List Char) :=
  (breakOnColon l).map (fun p => (trim p.1, stripQuotes (trim p.2)))

/-- Modelled from the spec: accumulate the parsed key/value pairs of the
front-matter block lines, in order; non-conforming lines are skipped. -/
def parseHeaderLines (ls : List (List Char)) : List (String × String) :=
  ls.filterMap (fun l => (parseHeaderLine l).map (fun p => (String.mk p.1, String.mk p.2)))

/-- Modelled from the spec: locate the front-matter block between the first
two delimiter lines and parse it; the body is all text following the second
delimiter line, with the single leading newline trimmed (here: the remaining
lines rejoined).  If fewer than two delimiter lines exist, the metadata is
empty and the entire file is the body. -/
def parseDocument (content : List Char) : List (String × String) × List Char :=
  match splitAtDelim (splitLines content) with
  | none => ([], content)
  | some (_, rest1) =>
    match splitAtDelim rest1 with
    | none => ([], content)
    | some (block, rest2) => (parseHeaderLines block, joinLines rest2)

/-- Keep the characters before the last dot of a file name; `none` when the
name contains no dot. -/
def stripExtAux : List Char → Option (List Char)
  | [] => none
  | c :: rest =>
    match stripExtAux rest with
    | some r => some (c :: r)
    | none => if c = '.' then some [] else none

/-- Modelled from the spec: strip the file extension (everything from the
last dot) from a file name; a dotless name is unchanged. -/
def stripExt (l : List Char) : List Char :=
  (stripExtAux l).getD l

/-- Modelled from the spec: build one Post from a file name and the file's
full text content. -/
def mkPost (fname content : List Char) : Post :=
  { metadata := (parseDocument content).1
    slug := String.mk (stripExt fname)
    body := String.mk (parseDocument content).2 }

/-- Look a key up in a metadata record; the LAST occurrence of the key wins,
matching the duplicate-key policy of the spec. -/
def lookupLast (key : String) : List (String × String) → Option String
  | [] => none
  | p :: rest =>
    match lookupLast key rest with
    | some v => some v
    | none => if p.1 = key then some p.2 else none

/-- The publish date a consumer reads from `post.metadata.publishedAt`;
empty when the field is absent. -/
def pubOf (p : Post) : String :=
  (lookupLast "publishedAt" p.metadata).getD ""

/-- Sorting key of a post: the codepoints of its publish date, compared in
the lexicographic order of `List Nat`, which coincides with lexicographic
string comparison of the date values. -/
def pubKey (p : Post) : List Nat :=
  (pubOf p).data.map Char.toNat

/-- Descending publish-date relation used to order the returned posts. -/
def dateGe (a b : Post) : Prop :=
  pubKey b ≤ pubKey a

instance : DecidableRel dateGe := fun a b =>
  inferInstanceAs (Decidable (pubKey b ≤ pubKey a))

instance : IsTotal Post dateGe :=
  ⟨fun a b => le_total (pubKey b) (pubKey a)⟩

instance : IsTrans Post dateGe :=
  ⟨fun _ _ _ hab hbc => le_trans hbc hab⟩

/-- Modelled from the spec: `listPosts()` (named `getBlogPosts` in the
repository).  The directory is abstracted as `none` (directory missing) or
`some files` (list of file-name/content pairs).  Each file is parsed into a
Post and the posts are returned in descending publish-date order. -/
def listPosts (dir : Option (List (String × String))) : Except RegistryError (List Post) :=
  match dir with
  | none => .error .DirectoryNotFound
  | some files =>
    .ok (List.insertionSort dateGe (files.map (fun f => mkPost f.1.data f.2.data)))

/-- The repository's name for the listing operation. -/
def getBlogPosts : Option (List (String × String)) → Except RegistryError (List Post) :=
  listPosts

/-- One entry of the generated sitemap (from `src/app/sitemap.ts`). -/
structure SitemapEntry where
  url : String
  lastModified : String
deriving DecidableEq

/-- The site base URL (`src/app/sitemap.ts`). -/
def baseUrl : String := "https://frostzt.com"

/-- The blog URL entry the sitemap emits for one post (`src/app/sitemap.ts`). -/
def blogEntry (p : Post) : SitemapEntry :=
  ⟨baseUrl ++ "/blog/" ++ p.slug, pubOf p⟩

/-- The notes URL entry the sitemap emits for one post (`src/app/sitemap.ts`). -/
def noteEntry (p : Post) : SitemapEntry :=
  ⟨baseUrl ++ "/notes/" ++ p.slug, pubOf p⟩

/-- Shallow embedding of the default export of `src/app/sitemap.ts`: two
calls to `getBlogPosts` produce the blog and notes entries, the two static
routes are prepended, and `today` stands for the date-only prefix of
`new Date().toISOString()` used for the static routes.  A registry failure
propagates, as an uncaught exception does in the source. -/
def sitemap (dir : Option (List (String × String))) (today : String) :
    Except RegistryError (List SitemapEntry) :=
  match getBlogPosts dir with
  | .error e => .error e
  | .ok ps1 =>
    match getBlogPosts dir with
    | .error e => .error e
    | .ok ps2 =>
      let blogs := ps1.map blogEntry
      let notes := ps2.map noteEntry
      let routes := ["", "/blog"].map (fun route => (⟨baseUrl ++ route, today⟩ : SitemapEntry))
      .ok (routes ++ blogs ++ notes)

/-- Three demonstration documents with publish dates 2021, 2023, 2022. -/
def demoFiles : List (String × String) :=
  [("a.mdx", "---\npublishedAt: \"2021-01-01\"\n---\nA"),
   ("b.mdx", "---\npublishedAt: \"2023-01-01\"\n---\nB"),
   ("c.mdx", "---\npublishedAt: \"2022-01-01\"\n---\nC")]

/-- The document of the round-trip property: front-matter with a title and a
publish date, body `Hello`. -/
def c1content : String :=
  "---\ntitle: \"T\"\npublishedAt: \"2022-01-01\"\n---\nHello"

/-- Claim C5: a missing documents directory surfaces `DirectoryNotFound` to
the caller of `listPosts`; no (in particular, no empty) post list is
returned. -/
theorem claim_c5 :
    listPosts none = .error RegistryError.DirectoryNotFound
      ∧ ∀ ps : List Post, listPosts none ≠ .ok ps := by
  refine ⟨rfl, fun ps h => Except.noConfusion h⟩

theorem splitAtDelim_eq_none {ls : List (List Char)} :
    splitAtDelim ls = none ↔ ls.countP isDelimLine = 0 := by
  induction ls with
  | nil => simp [splitAtDelim]
  | cons l rest ih =>
    by_cases hd : isDelimLine l
    · simp [splitAtDelim, hd, List.countP_cons_of_pos]
    · simp [splitAtDelim, hd, List.countP_cons_of_neg, ih]

theorem splitAtDelim_countP {ls b a} (h : splitAtDelim ls = some (b, a)) :
    ls.countP isDelimLine = a.countP isDelimLine + 1 := by
  induction ls generalizing b a with
  | nil => simp [splitAtDelim] at h
  | cons l rest ih =>
    unfold splitAtDelim at h
    by_cases hd : isDelimLine l
    · rw [if_pos hd] at h
      simp only [Option.some.injEq, Prod.mk.injEq] at h
      rw [List.countP_cons_of_pos _ _ hd, h.2]
    · rw [if_neg hd] at h
      cases hsplit : splitAtDelim rest with
      | none => rw [hsplit] at h; simp at h
      | some p =>
        obtain ⟨b2, a2⟩ := p
        rw [hsplit] at h
        simp only [Option.map_some', Option.some.injEq, Prod.mk.injEq] at h
        rw [List.countP_cons_of_neg _ _ hd, ← h.2]
        exact ih hsplit

theorem missing_frontmatter {content : List Char}
    (h : (splitLines content).countP isDelimLine < 2) :
    parseDocument content = ([], content) := by
  unfold parseDocument
  split
  · rfl
  · rename_i b1 rest1 h1
    split
    · rfl
    · rename_i block rest2 h2
      exfalso
      have hc1 := splitAtDelim_countP h1
      have hc2 := splitAtDelim_countP h2
      omega

/-- Claim C4: a document with fewer than two delimiter lines parses without
failure into a post with empty metadata whose body is the entire file
content. -/
theorem claim_c4 (fname content : List Char)
    (h : (splitLines content).countP isDelimLine < 2) :
    (mkPost fname content).metadata = [] ∧ (mkPost fname content).body = String.mk content := by
  have hp := missing_frontmatter h
  constructor
  · show (parseDocument content).1 = []
    rw [hp]
  · show String.mk (parseDocument content).2 = String.mk content
    rw [hp]

/-- Witness for claim C4 at a concrete delimiter-free document. -/
theorem claim_c4_witness :
    (mkPost "a.mdx".data "Hello World".data).metadata = []
      ∧ (mkPost "a.mdx".data "Hello World".data).body = String.mk "Hello World".data :=
  claim_c4 "a.mdx".data "Hello World".data (by decide)

/-- Claim C1: for every document file whose content is a front-matter block
with title `T` and publish date `2022-01-01` followed by the body `Hello`,
the post `getBlogPosts` returns for that file carries exactly that title,
that publish date, and the body `Hello`. -/
theorem claim_c1 (fname : String) :
    ∃ p : Post, getBlogPosts (some [(fname, c1content)]) = .ok [p]
      ∧ lookupLast "title" p.metadata = some "T"
      ∧ lookupLast "publishedAt" p.metadata = some "2022-01-01"
      ∧ p.body = "Hello" := by
  refine ⟨mkPost fname.data c1content.data, rfl, ?_, ?_, ?_⟩
  · show lookupLast "title" (parseDocument c1content.data).1 = some "T"
    decide
  · show lookupLast "publishedAt" (parseDocument c1content.data).1 = some "2022-01-01"
    decide
  · show String.mk (parseDocument c1content.data).2 = "Hello"
    decide

theorem stripExtAux_eq_none {l : List Char} (h : '.' ∉ l) : stripExtAux l = none := by
  induction l with
  | nil => rfl
  | cons c rest ih =>
    simp only [List.mem_cons, not_or] at h
    unfold stripExtAux
    rw [ih h.2, if_neg (fun hc => h.1 hc.symm)]

theorem stripExtAux_append {base ext : List Char} (h : '.' ∉ ext) :
    stripExtAux (base ++ '.' :: ext) = some base := by
  induction base with
  | nil =>
    show stripExtAux ('.' :: ext) = some []
    unfold stripExtAux
    rw [stripExtAux_eq_none h, if_pos rfl]
  | cons c rest ih =>
    show stripExtAux (c :: (rest ++ '.' :: ext)) = some (c :: rest)
    unfold stripExtAux
    rw [ih]

theorem stripExt_append {base ext : List Char} (h : '.' ∉ ext) :
    stripExt (base ++ '.' :: ext) = base := by
  unfold stripExt
  rw [stripExtAux_append h]
  rfl

/-- Claim C9: the slug of every returned post is the file name with its
extension stripped; stripping removes exactly the final dot and what follows
it; in particular `my-post.mdx` yields the slug `my-post`. -/
theorem claim_c9 :
    (∀ fname content : List Char, (mkPost fname content).slug = String.mk (stripExt fname))
      ∧ (∀ base ext : List Char, '.' ∉ ext → stripExt (base ++ '.' :: ext) = base)
      ∧ (mkPost "my-post.mdx".data "x".data).slug = "my-post" := by
  exact ⟨fun _ _ => rfl, fun _ _ h => stripExt_append h, by decide⟩

/-- Witness for the conditional part of claim C9 at a concrete file name. -/
theorem claim_c9_witness :
    stripExt ("my-post".data ++ '.' :: "mdx".data) = "my-post".data :=
  claim_c9.2.1 "my-post".data "mdx".data (by decide)

theorem breakOnColon_eq {l k v : List Char} (h : breakOnColon l = some (k, v)) :
    l = k ++ ':' :: v ∧ ':' ∉ k := by
  induction l generalizing k v with
  | nil => simp [breakOnColon] at h
  | cons c rest ih =>
    unfold breakOnColon at h
    by_cases hc : c = ':'
    · rw [if_pos hc] at h
      simp only [Option.some.injEq, Prod.mk.injEq] at h
      rw [← h.1, ← h.2, hc]
      exact ⟨rfl, List.not_mem_nil _⟩
    · rw [if_neg hc] at h
      cases hsplit : breakOnColon rest with
      | none => rw [hsplit] at h; simp at h
      | some p =>
        obtain ⟨k2, v2⟩ := p
        rw [hsplit] at h
        simp only [Option.map_some', Option.some.injEq, Prod.mk.injEq] at h
        obtain ⟨heq, hmem⟩ := ih hsplit
        rw [← h.1, ← h.2]
        refine ⟨by rw [heq]; rfl, ?_⟩
        intro hin
        rcases List.mem_cons.mp hin with h1 | h1
        · exact hc h1.symm
        · exact hmem h1

/-- Claim C6: a header line is split on its first colon only — whenever the
splitter returns a key and a value remainder, the line is exactly the key,
one colon, then the full remainder, and the key itself contains no colon; in
particular the line `summary: (quote)A: B: C(quote)` parses to the key
`summary` with value `A: B: C`. -/
theorem claim_c6 :
    (∀ l k v : List Char, breakOnColon l = some (k, v) → l = k ++ ':' :: v ∧ ':' ∉ k)
      ∧ parseHeaderLine ("summary: ".data ++ squote :: ("A: B: C".data ++ [squote]))
          = some ("summary".data, "A: B: C".data) := by
  exact ⟨fun _ _ _ h => breakOnColon_eq h, by decide⟩

/-- Witness for the conditional part of claim C6 at a concrete line. -/
theorem claim_c6_witness :
    "a:b".data = "a".data ++ ':' :: "b".data ∧ ':' ∉ "a".data :=
  claim_c6.1 "a:b".data "a".data "b".data (by decide)

theorem stripQuotes_strips {inner : List Char} {q : Char}
    (hq : q = squote ∨ q = dquote) :
    stripQuotes (q :: (inner ++ [q])) = inner := by
  have hne : inner ++ [q] ≠ [] := by simp
  have hlast : (q :: (inner ++ [q])).getLast? = some q := by
    rw [← List.cons_append]
    exact List.getLast?_concat _
  show (if (inner ++ [q]) ≠ [] ∧ (q :: (inner ++ [q])).getLast? = some q
          ∧ (q = squote ∨ q = dquote)
        then (inner ++ [q]).dropLast
        else q :: (inner ++ [q])) = inner
  rw [if_pos ⟨hne, hlast, hq⟩]
  exact List.dropLast_concat

/-- Claim C7: a value enclosed in a matching pair of quote characters loses
exactly that one layer of quotes; in particular `title: (squote)Hello(squote)`
and `title: (dquote)Hello(dquote)` both parse to the metadata value `Hello`
with no quote characters. -/
theorem claim_c7 :
    (∀ (inner : List Char) (q : Char), q = squote ∨ q = dquote →
        stripQuotes (q :: (inner ++ [q])) = inner)
      ∧ parseHeaderLine ("title: ".data ++ squote :: ("Hello".data ++ [squote]))
          = some ("title".data, "Hello".data)
      ∧ parseHeaderLine "title: \"Hello\"".data = some ("title".data, "Hello".data) := by
  exact ⟨fun _ _ hq => stripQuotes_strips hq, by decide, by decide⟩

/-- Witness for the conditional part of claim C7 at a concrete value. -/
theorem claim_c7_witness :
    stripQuotes (squote :: ("Hi".data ++ [squote])) = "Hi".data :=
  claim_c7.1 "Hi".data squote (Or.inl rfl)

theorem lookupLast_append (key : String) (m1 m2 : List (String × String)) :
    lookupLast key (m1 ++ m2)
      = match lookupLast key m2 with
        | some v => some v
        | none => lookupLast key m1 := by
  induction m1 with
  | nil =>
    show lookupLast key m2
        = match lookupLast key m2 with
          | some v => some v
          | none => none
    cases lookupLast key m2 <;> rfl
  | cons p rest ih =>
    show (match lookupLast key (rest ++ m2) with
          | some v => some v
          | none => if p.1 = key then some p.2 else none)
        = match lookupLast key m2 with
          | some v => some v
          | none =>
            match lookupLast key rest with
            | some v => some v
            | none => if p.1 = key then some p.2 else none
    rw [ih]
    cases lookupLast key m2 <;> rfl

theorem parseHeaderLines_cons_some {l k v : List Char}
    (h : parseHeaderLine l = some (k, v)) (ls : List (List Char)) :
    parseHeaderLines (l :: ls) = (String.mk k, String.mk v) :: parseHeaderLines ls := by
  show List.filterMap _ (l :: ls) = _
  rw [List.filterMap_cons, h]
  rfl

theorem parseHeaderLines_cons_none {l : List Char}
    (h : parseHeaderLine l = none) (ls : List (List Char)) :
    parseHeaderLines (l :: ls) = parseHeaderLines ls := by
  show List.filterMap _ (l :: ls) = _
  rw [List.filterMap_cons, h]
  rfl

theorem parseHeaderLines_append (ls1 ls2 : List (List Char)) :
    parseHeaderLines (ls1 ++ ls2) = parseHeaderLines ls1 ++ parseHeaderLines ls2 := by
  show List.filterMap _ (ls1 ++ ls2) = _
  rw [List.filterMap_append]
  rfl

theorem lookupLast_none_of_no_key {k : List Char} {ls : List (List Char)}
    (h : ∀ l ∈ ls, ∀ p : List Char × List Char, parseHeaderLine l = some p → p.1 ≠ k) :
    lookupLast (String.mk k) (parseHeaderLines ls) = none := by
  induction ls with
  | nil => rfl
  | cons l rest ih =>
    have hrest := ih (fun l2 hl2 => h l2 (List.mem_cons_of_mem _ hl2))
    cases hl : parseHeaderLine l with
    | none =>
      rw [parseHeaderLines_cons_none hl, hrest]
    | some p =>
      obtain ⟨k2, v2⟩ := p
      rw [parseHeaderLines_cons_some hl]
      show (match lookupLast (String.mk k) (parseHeaderLines rest) with
            | some v => some v
            | none =>
              if String.mk k2 = String.mk k then some (String.mk v2) else none) = none
      rw [hrest]
      have hne : k2 ≠ k := h l (List.mem_cons_self _ _) (k2, v2) hl
      show (if String.mk k2 = String.mk k then some (String.mk v2) else none) = none
      exact if_neg (fun hmk => hne (congrArg String.data hmk))

/-- Claim C8: when a front-matter block contains two header lines with the
same key, the metadata record maps that key to the value of the LAST
occurrence, and the duplicate raises no error (parsing is total and the
lookup succeeds): if line `l` parses to key `k` and no later line of the
block yields key `k`, the record maps `k` to the value of `l`; in particular
two `title` lines yield the second value. -/
theorem claim_c8 :
    (∀ (ls ls2 : List (List Char)) (l k v : List Char),
        parseHeaderLine l = some (k, v) →
        (∀ l2 ∈ ls2, ∀ p : List Char × List Char, parseHeaderLine l2 = some p → p.1 ≠ k) →
        lookupLast (String.mk k) (parseHeaderLines (ls ++ l :: ls2)) = some (String.mk v))
      ∧ lookupLast "title" (parseHeaderLines ["title: A".data, "title: B".data])
          = some "B" := by
  constructor
  · intro ls ls2 l k v hl hnone
    rw [parseHeaderLines_append, parseHeaderLines_cons_some hl, lookupLast_append]
    have hx : lookupLast (String.mk k)
        ((String.mk k, String.mk v) :: parseHeaderLines ls2) = some (String.mk v) := by
      show (match lookupLast (String.mk k) (parseHeaderLines ls2) with
            | some v2 => some v2
            | none => if (String.mk k : String) = String.mk k
                      then some (String.mk v) else none) = some (String.mk v)
      rw [lookupLast_none_of_no_key hnone]
      show (if (String.mk k : String) = String.mk k
            then some (String.mk v) else none) = some (String.mk v)
      rw [if_pos rfl]
    rw [hx]
  · decide

/-- Witness for the conditional part of claim C8: a two-line block with a
duplicated `title` key maps `title` to the second value. -/
theorem claim_c8_witness :
    lookupLast (String.mk "title".data)
        (parseHeaderLines (["title: A".data] ++ "title: B".data :: []))
      = some (String.mk "B".data) :=
  claim_c8.1 ["title: A".data] [] "title: B".data "title".data "B".data (by decide)
    (fun l2 hl2 => absurd hl2 (List.not_mem_nil l2))

/-- Claim C3: the posts returned by `listPosts` are in descending
publish-date order (lexicographic comparison of the date strings, via their
codepoint lists); in particular three documents dated 2021-01-01, 2023-01-01
and 2022-01-01 come back in the order 2023, 2022, 2021. -/
theorem claim_c3 :
    (∀ (files : List (String × String)) (posts : List Post),
        listPosts (some files) = .ok posts → posts.Sorted dateGe)
      ∧ (listPosts (some demoFiles)).toOption.map (fun ps => ps.map pubOf)
          = some ["2023-01-01", "2022-01-01", "2021-01-01"] := by
  constructor
  · intro files posts h
    simp only [listPosts, Except.ok.injEq] at h
    rw [← h]
    exact List.sorted_insertionSort dateGe _
  · decide

/-- Witness for the conditional part of claim C3: the demonstration posts
come back sorted. -/
theorem claim_c3_witness :
    ((listPosts (some demoFiles)).toOption.getD []).Sorted dateGe :=
  claim_c3.1 demoFiles ((listPosts (some demoFiles)).toOption.getD []) rfl

theorem sitemap_eq {dir : Option (List (String × String))} {posts : List Post}
    (today : String) (h : getBlogPosts dir = .ok posts) :
    sitemap dir today = .ok
      ((⟨baseUrl ++ "", today⟩ : SitemapEntry) :: (⟨baseUrl ++ "/blog", today⟩ : SitemapEntry)
        :: (posts.map blogEntry ++ posts.map noteEntry)) := by
  unfold sitemap
  rw [h]
  rfl

/-- Claim C2: for every post sequence `getBlogPosts` returns, the sitemap
contains, right after the two static routes, exactly one blog entry per post,
in order, equal to the base URL `https://frostzt.com` plus `/blog/` plus the
slug, stamped with the publish date read from the metadata. -/
theorem claim_c2 (dir : Option (List (String × String))) (posts : List Post) (today : String)
    (h : getBlogPosts dir = .ok posts) :
    baseUrl = "https://frostzt.com"
      ∧ ∃ es : List SitemapEntry, sitemap dir today = .ok es
          ∧ (es.drop 2).take posts.length
              = posts.map (fun p => (⟨baseUrl ++ "/blog/" ++ p.slug, pubOf p⟩ : SitemapEntry)) := by
  refine ⟨rfl, _, sitemap_eq today h, ?_⟩
  show (posts.map blogEntry ++ posts.map noteEntry).take posts.length = posts.map blogEntry
  rw [← List.length_map posts blogEntry, List.take_left]

/-- Witness for claim C2 at the demonstration directory. -/
theorem claim_c2_witness :
    baseUrl = "https://frostzt.com"
      ∧ ∃ es : List SitemapEntry, sitemap (some demoFiles) "2025-06-01" = .ok es
          ∧ (es.drop 2).take (((listPosts (some demoFiles)).toOption.getD []).length)
              = ((listPosts (some demoFiles)).toOption.getD []).map
                  (fun p => (⟨baseUrl ++ "/blog/" ++ p.slug, pubOf p⟩ : SitemapEntry)) :=
  claim_c2 (some demoFiles) ((listPosts (some demoFiles)).toOption.getD []) "2025-06-01" rfl

/-- Claim C10: on a post list of length n the sitemap is exactly the two
static route entries followed by one blog entry per post followed by one
notes entry per post — 2 + 2n entries in that order, and the notes entries
are built from the same `getBlogPosts` result as the blog entries. -/
theorem claim_c10 (dir : Option (List (String × String))) (posts : List Post) (today : String)
    (h : getBlogPosts dir = .ok posts) :
    sitemap dir today = .ok
        ((⟨baseUrl, today⟩ : SitemapEntry) :: (⟨baseUrl ++ "/blog", today⟩ : SitemapEntry)
          :: (posts.map blogEntry ++ posts.map noteEntry))
      ∧ ∀ es : List SitemapEntry, sitemap dir today = .ok es
          → es.length = 2 + 2 * posts.length := by
  have hs := sitemap_eq today h
  constructor
  · rw [hs, String.append_empty]
  · intro es hes
    rw [hs] at hes
    injection hes with h2
    rw [← h2]
    simp only [List.length_cons, List.length_append, List.length_map]
    omega

/-- Witness for claim C10 at the demonstration directory. -/
theorem claim_c10_witness :
    sitemap (some demoFiles) "2025-06-01" = .ok
        ((⟨baseUrl, "2025-06-01"⟩ : SitemapEntry)
          :: (⟨baseUrl ++ "/blog", "2025-06-01"⟩ : SitemapEntry)
          :: (((listPosts (some demoFiles)).toOption.getD []).map blogEntry
              ++ ((listPosts (some demoFiles)).toOption.getD []).map noteEntry))
      ∧ ∀ es : List SitemapEntry, sitemap (some demoFiles) "2025-06-01" = .ok es
          → es.length = 2 + 2 * ((listPosts (some demoFiles)).toOption.getD []).length :=
  claim_c10 (some demoFiles) ((listPosts (some demoFiles)).toOption.getD []) "2025-06-01" rfl

end Portfolio
